import Mathlib

/-!
Verification of the grouping / path-resolution / planning / execution core of
`wordpress-export-to-markdown` (Polylang fork), shallowly embedded from the
JavaScript sources (`wizard`/`parser.js` = src/unnamed/part_001,
writer = src/unnamed/part_000).

Modelling conventions:
* Filesystem paths are lists of segments (`path.join a b` = `a ++ [b]`,
  `path.dirname p` = `p.dropLast`); the filesystem state is the list of paths
  of the files that exist (`fs.existsSync` = membership).
* A JavaScript property that may be `null`/`undefined` is an `Option`.
* Machine integers do not occur; delays are `Nat` milliseconds.
* External collaborators (the XML tree, `php-serialize`'s `unserialize`,
  `luxon` date formatting, the HTTP fetch) are parameters or pre-computed
  string fields, never re-implemented.
-/

/-- Model of `shared.config` — the configuration fields the core reads.
`dateFormat = ""` models the falsy default `''`. -/
structure Config where
  polylang : Bool
  postFolders : Bool
  output : String
  defaultLanguage : String
  writeDelay : Nat
  requestDelay : Nat
  dateFormat : String
  includeTime : Bool
  quoteDate : Bool
  deriving Repr, DecidableEq

/-- A luxon `DateTime` as the serializer consumes it: the three strings the
date branch of `loadMarkdownFilePromise` can emit (`toFormat(config.dateFormat)`,
`toISO()`, `toISODate()`), pre-computed because luxon is an external
collaborator. -/
structure DateVal where
  formatted : String
  iso : String
  isoDate : String
  deriving Repr, DecidableEq

/-- The heterogeneous frontmatter value bag: the runtime type tags that the
serializer in `loadMarkdownFilePromise` distinguishes, in its test order
(array / integer / DateTime / boolean / non-null object / string / null /
undefined).  The JS type tests are mutually exclusive, so a tagged union is a
faithful model. -/
inductive FmValue where
  | arr (items : List String)
  | int (n : Int)
  | date (d : DateVal)
  | bool (b : Bool)
  | obj (entries : List (String × String))
  | str (s : String)
  | null
  | undef
  deriving Repr, DecidableEq

/-- The `post.polylang` container initialized in step 7 of `parseFilePromise`:
`{ language: null, groupSlug: null, translationMap: null }`.
A translation map is kept as an association list in key-insertion order
(`Object.values` enumerates in that order for non-index keys such as
language codes). -/
structure Polylang where
  language : Option String
  groupSlug : Option String
  translationMap : Option (List (String × String))
  deriving Repr, DecidableEq

/-- A post as `buildPost` constructs it and `parseFilePromise` enriches it.
`language` is the *top-level* `post.language` property that `chooseBaseSlug`
reads; no code in the repository ever assigns it (only `post.polylang.language`
is assigned), so the pipeline always leaves it `none` — it is kept in the model
precisely so that `chooseBaseSlug` can be embedded verbatim.
The raw XML `data` field is dropped (external collaborator). -/
structure Post where
  id : String
  type : String
  slug : String
  language : Option String
  coverImageId : Option String
  coverImage : Option String
  polylang : Polylang
  frontmatter : List (String × FmValue)
  metaContent : List (String × String)
  content : String
  imageUrls : List String
  deriving Repr, DecidableEq

/-- The fields of an `<item>` node that `buildPost` reads, as strings
(the XML tree is an external collaborator). -/
structure ItemData where
  postType : String
  postId : String
  link : String
  status : String
  postName : String
  contentMarkdown : String
  thumbnailId : Option String
  deriving Repr, DecidableEq

/-- Model of `buildPost(data)` (parser), restricted to the fields of the model.  The
object literal it returns has *no* `language` and no `polylang` property
(step 7 of `parseFilePromise` later initializes `polylang` to the all-null
container before filling it), hence `language := none` and the all-null
`polylang`.  Frontmatter/metaContent population is performed later /
externally and starts empty here; `slug` is the already-percent-decoded
`post_name` (`decodeURIComponent` is the JS runtime's decoder, external —
no theorem below involves percent-encoded slugs). -/
def buildPost (data : ItemData) : Post :=
  { id := data.postId
    type := data.postType
    slug := data.postName
    language := none
    coverImageId := data.thumbnailId
    coverImage := none
    polylang := ⟨none, none, none⟩
    frontmatter := []
    metaContent := []
    content := data.contentMarkdown
    imageUrls := [] }

/-- JS `x || 'und'` on a nullable string: `null`/`undefined` and the empty
string are falsy. -/
def jsOrUnd (x : Option String) : String :=
  match x with
  | none => "und"
  | some s => if s = "" then "und" else s

/-- Splits a string at every occurrence of a separator character
(structurally over the character list, so concrete instances evaluate inside
the kernel; agrees with JS `String.prototype.split` with a one-character
separator). -/
def splitOnChar (sep : Char) (s : String) : List String :=
  (s.data.foldr (fun c (acc : List (List Char)) =>
    if c = sep then [] :: acc
    else
      match acc with
      | [] => [[c]]
      | a :: rest => (c :: a) :: rest) [[]]).map (fun l => ⟨l⟩)

/-- Modelled from the spec: `shared.getFilenameFromUrl` lives in `shared.js`,
which is not among the provided sources.  Per the spec (§4.2) the image
filename "is derived deterministically from the URL's final path segment". -/
def getFilenameFromUrl (url : String) : String :=
  (splitOnChar '/' url).getLastD url

/-- Modelled from the spec: `shared.buildPostPath` lives in `shared.js`,
which is not among the provided sources.  Per the spec (§4.2 decision table,
single-post rows): with per-post folders `{output}/{slug}/index.md`, without
`{output}/{slug}.md`.  (The optional date-prefix / date-folder options are
not part of the spec's table and are left out of the model.) -/
def buildPostPath (cfg : Config) (post : Post) : List String :=
  if cfg.postFolders then [cfg.output, post.slug, "index.md"]
  else [cfg.output, post.slug ++ ".md"]

/-- Model of `value.replace(/"/g, '\\"')`. -/
def escapeQuotes (s : String) : String :=
  ⟨s.data.flatMap (fun c => if c = '"' then ['\\', '"'] else [c])⟩

/-- One `+=` step of the multi-line-string branch of `loadMarkdownFilePromise`.
`outputValue` is declared with `let outputValue;` and never initialized on
this branch (the initialization is commented out in the source), so the first
`outputValue += ...` concatenates onto the *undefined* value, which JavaScript
coerces to the string `"undefined"`. -/
def jsPlusEq (acc : Option String) (s : String) : Option String :=
  match acc with
  | none => some ("undefined" ++ s)
  | some a => some (a ++ s)

/-- The final `else` branch of the serializer: `(value ?? '').replace(/"/g,'\\"')`
then quote when non-empty.  `null`/`undefined` reach it as `''`. -/
def fmQuoteBranch (s : String) : Option String :=
  let escaped := escapeQuotes s
  if escaped.length > 0 then some ("\"" ++ escaped ++ "\"") else none

/-- The per-value part of the frontmatter serializer in
`loadMarkdownFilePromise`: computes `outputValue`, `none` meaning the JS
variable is still `undefined` after the branch (so no line is emitted). -/
def fmSerializeValue (cfg : Config) (v : FmValue) : Option String :=
  match v with
  | .arr items =>
      -- `if (value.length > 0) outputValue = value.reduce((list, item) => `...`, '')`
      if items.length > 0 then
        some (items.foldl (fun list item => list ++ "\n  - \"" ++ item ++ "\"") "")
      else none
  | .int n => some (toString n)
  | .date d =>
      let s := if cfg.dateFormat ≠ "" then d.formatted
               else if cfg.includeTime then d.iso else d.isoDate
      some (if cfg.quoteDate then "\"" ++ s ++ "\"" else s)
  | .bool b => some (if b then "true" else "false")
  | .obj entries =>
      -- `outputValue = ""` then one `\n  subKey: subVal` per entry
      some (entries.foldl (fun acc kv => acc ++ "\n  " ++ kv.1 ++ ": " ++ kv.2) "")
  | .str s =>
      if s.data.contains '\n' then
        -- multi-line branch: `outputValue += `  ${line}\n`` per line, on an
        -- uninitialized `outputValue`
        (splitOnChar '\n' s).foldl (fun acc line => jsPlusEq acc ("  " ++ line ++ "\n")) none
      else
        -- single string branch
        fmQuoteBranch s
  | .null => fmQuoteBranch ""
  | .undef => fmQuoteBranch ""

/-- Model of `loadMarkdownFilePromise(post)`: the Markdown document string —
frontmatter between `---` lines (one `key: value` line per entry whose
`outputValue` ended defined), blank line, body, then one `::key\n...\n::`
block per metaContent entry. -/
def loadMarkdownFilePromise (cfg : Config) (post : Post) : String :=
  let header := post.frontmatter.foldl (fun out kv =>
    match fmSerializeValue cfg kv.2 with
    | some v => out ++ kv.1 ++ ": " ++ v ++ "\n"
    | none => out) "---\n"
  let body := header ++ "---\n\n" ++ post.content ++ "\n"
  post.metaContent.foldl (fun out kv =>
    out ++ "\n\n::" ++ kv.1 ++ "\n" ++ kv.2 ++ "\n::\n") body

/-- Lexicographic `≤` on char lists by code point, the comparison JS
`Array.prototype.sort()` applies to strings (code-unit order; identical on
the basic plane). -/
def listCharLe : List Char → List Char → Bool
  | [], _ => true
  | _ :: _, [] => false
  | c :: cs, d :: ds =>
      if c.toNat < d.toNat then true
      else if d.toNat < c.toNat then false
      else listCharLe cs ds

/-- String `≤` as the default JS sort comparator orders strings. -/
def jsStrLe (a b : String) : Bool :=
  listCharLe a.data b.data

/-- The relation form of `jsStrLe`, for sorting. -/
def JsLe (a b : String) : Prop :=
  jsStrLe a b = true

instance : DecidableRel JsLe :=
  fun a b => inferInstanceAs (Decidable (jsStrLe a b = true))

/-- The sort `Object.values(tm).slice().sort()` performs: the ECMAScript sort
is stable, and any two stable sorts under the same total preorder agree, so
stable insertion sort by `JsLe` is a faithful model. -/
def sortStrings (l : List String) : List String :=
  List.insertionSort JsLe l

/-- The group key `buildTranslationGroups` computes for one post: the sorted,
comma-joined `Object.values` of a non-empty translation map, else the post's
own id. -/
def groupKey (post : Post) : String :=
  match post.polylang.translationMap with
  | some tm =>
      if tm.length > 0 then
        String.intercalate "," (sortStrings (tm.map Prod.snd))
      else post.id
  | none => post.id

/-- Model of `groups[key].push(post)` after `if (!groups[key]) groups[key] = []`:
append to the existing entry, or create the key at the end (JS object
insertion order). -/
def insertGroup (groups : List (String × List Post)) (key : String) (post : Post) :
    List (String × List Post) :=
  match groups with
  | [] => [(key, [post])]
  | (k, l) :: rest =>
      if k = key then (k, l ++ [post]) :: rest
      else (k, l) :: insertGroup rest key post

/-- Model of `buildTranslationGroups(allPosts)` (parser). -/
def buildTranslationGroups (allPosts : List Post) : List (String × List Post) :=
  allPosts.foldl (fun groups post => insertGroup groups (groupKey post) post) []

/-- JS property assignment `m[key] = value`: overwrite in place if the key
exists, else append. -/
def setEntry (m : List (String × List Post)) (key : String) (value : List Post) :
    List (String × List Post) :=
  match m with
  | [] => [(key, value)]
  | (k, l) :: rest =>
      if k = key then (k, value) :: rest
      else (k, l) :: setEntry rest key value

/-- The `else` branch of `writeFilesPromise` (Polylang disabled):
`groupMap[String(post.id)] = [post]` for each post. -/
def singletonGroups (posts : List Post) : List (String × List Post) :=
  posts.foldl (fun groupMap post => setEntry groupMap post.id [post]) []

/-- Model of `chooseBaseSlug(postsInGroup, defaultLangCode)` (parser):
`postsInGroup.find(p => p.language === defaultLangCode)`, else
`postsInGroup[0].slug`.  Note it reads the top-level `p.language`, not
`p.polylang.language`.  The `[]` case (JS: TypeError on `undefined.slug`)
cannot arise — the callers pass groups of length > 1. -/
def chooseBaseSlug (postsInGroup : List Post) (defaultLangCode : String) : String :=
  match postsInGroup.find? (fun p => p.language = some defaultLangCode) with
  | some candidate => candidate.slug
  | none => ((postsInGroup.head?).map Post.slug).getD ""

/-- A `<term>` node as step 6 of `parseFilePromise` reads it: taxonomy, slug
and the raw `term_description` (`|| ''`). -/
structure Term where
  taxonomy : String
  slug : String
  rawDesc : String
  deriving Repr, DecidableEq

/-- Association-list lookup, modelling JS `m[key]` (first — only — binding). -/
def lookupEntry (m : List (String × List (String × String))) (key : String) :
    Option (List (String × String)) :=
  match m with
  | [] => none
  | (k, v) :: rest => if k = key then some v else lookupEntry rest key

/-- JS assignment `termMappings[slug] = ...` on a plain-object map. -/
def setMapping (m : List (String × List (String × String))) (key : String)
    (value : List (String × String)) : List (String × List (String × String)) :=
  match m with
  | [] => [(key, value)]
  | (k, v) :: rest =>
      if k = key then (k, value) :: rest
      else (k, v) :: setMapping rest key value

/-- Step 6 of `parseFilePromise`: walk the `<term>` nodes, keep
`post_translations` taxonomies, `unserialize` the description (the external
`php-serialize` + `String(id)` normalization is the `parse` parameter,
returning `none` when it throws), record a warning and skip the term on
failure.  Returns `(termMappings, warned slugs)`. -/
def processTerms (parse : String → Option (List (String × String)))
    (terms : List Term) :
    List (String × List (String × String)) × List String :=
  terms.foldl (fun acc term =>
    if term.taxonomy ≠ "post_translations" then acc
    else
      match parse term.rawDesc with
      | some parsed => (setMapping acc.1 term.slug parsed, acc.2)
      | none => (acc.1, acc.2 ++ [term.slug])) ([], [])

/-- One `<category>` tag on an item: its `domain` and `nicename` attributes. -/
structure CategoryTag where
  domain : Option String
  nicename : Option String
  deriving Repr, DecidableEq

/-- The category-scanning loop of step 7 of `parseFilePromise`: starting from
the freshly initialized all-null container, set `language` from a
`domain="language"` tag and `groupSlug` from a `domain="post_translations"`
tag (the last matching tag wins, as in the loop). -/
def readCats (cats : List CategoryTag) : Polylang :=
  cats.foldl (fun (pl : Polylang) cat =>
    let pl := if cat.domain = some "language" then { pl with language := cat.nicename } else pl
    if cat.domain = some "post_translations" then { pl with groupSlug := cat.nicename } else pl)
    ⟨none, none, none⟩

/-- Step 7 of `parseFilePromise` for one post: initialize `post.polylang`,
read the `language` / `post_translations` category tags, then attach the full
translation map when `gs && termMappings[gs]` (a `none` or empty `groupSlug`
is falsy). -/
def attachPolylang (termMappings : List (String × List (String × String)))
    (post : Post) (cats : List CategoryTag) : Post :=
  let pl := readCats cats
  let pl :=
    match pl.groupSlug with
    | some gs =>
        if gs ≠ "" then
          match lookupEntry termMappings gs with
          | some tm => { pl with translationMap := some tm }
          | none => pl
        else pl
    | none => pl
  { post with polylang := pl }

/-- An image record from `collectAttachedImages` / `collectScrapedImages`. -/
structure ImageInfo where
  id : String
  postId : String
  url : String
  deriving Repr, DecidableEq

/-- Model of `mergeImagesIntoPosts(images, posts)` (parser): attach each image URL to
the posts it belongs to (uploaded to the post, or its featured image — the
latter also sets `coverImage`), skipping URLs the post already carries. -/
def mergeImagesIntoPosts (images : List ImageInfo) (posts : List Post) : List Post :=
  images.foldl (fun posts image =>
    posts.map (fun post =>
      let isCover := some image.id = post.coverImageId
      let shouldAttach := image.postId = post.id ∨ isCover
      let post := if isCover then { post with coverImage := some (getFilenameFromUrl image.url) } else post
      if shouldAttach ∧ ¬ post.imageUrls.contains image.url then
        { post with imageUrls := post.imageUrls ++ [image.url] }
      else post)) posts

/-- The `item` carried by a payload: a post for Markdown writes, a URL for
image downloads. -/
inductive Item where
  | post (p : Post)
  | image (url : String)
  deriving Repr, DecidableEq

/-- A planned unit of work (writer): what the Planner pushes and
`processPayloadsPromise` consumes.  Markdown payloads built by
`writeMarkdownFilesPromise` carry no `name`; image payloads do. -/
structure Payload where
  item : Item
  type : String
  name : Option String
  destinationPath : List String
  delay : Nat
  deriving Repr, DecidableEq

/-- A candidate unit before the existence check: its payload data with the
destination the loop computed for it.  Destinations are computed from the
posts and the configuration only, never from the filesystem, so the planning
loops factor as candidate enumeration followed by the skip-or-push fold
`planOver`. -/
structure PlanItem where
  item : Item
  type : String
  name : Option String
  dest : List String
  deriving Repr, DecidableEq

/-- The Planner's accumulated state: the `existingCount` counter, the running
`delay`, and the `payloads` array. -/
structure PlanState where
  existingCount : Nat
  delay : Nat
  payloads : List Payload
  deriving Repr, DecidableEq

/-- Model of `fs.existsSync` over the modelled filesystem state. -/
def fsHas (fs : List (List String)) (p : List String) : Bool :=
  fs.contains p

/-- The common body of every planning loop (writer, both
`writeMarkdownFilesPromise` and `writeImageFilesPromise`): for each candidate
destination, if a file exists there increment `existingCount` and emit
nothing, otherwise push a payload carrying the current delay and advance the
delay by `inc` (`config.writeDelay` / `config.requestDelay`). -/
def planStep (fs : List (List String)) (inc : Nat) (st : PlanState)
    (it : PlanItem) : PlanState :=
  if fsHas fs it.dest then { st with existingCount := st.existingCount + 1 }
  else
    { existingCount := st.existingCount
      delay := st.delay + inc
      payloads := st.payloads ++ [⟨it.item, it.type, it.name, it.dest, st.delay⟩] }

/-- The planning loops as a fold of `planStep` over the candidate list. -/
def planOver (fs : List (List String)) (inc : Nat) (st : PlanState)
    (items : List PlanItem) : PlanState :=
  items.foldl (planStep fs inc) st

/-- The destination `writeMarkdownFilesPromise` computes for one member of a
multi-member Polylang group: with per-post folders,
`path.join(groupFolder, `index.${lang}.md`)`; without, `buildPostPath` of the
post with the faked slug `${baseSlug}.${lang}` (`lang = post.polylang.language || 'und'`). -/
def mdGroupDest (cfg : Config) (groupFolder : List String) (baseSlug : String)
    (post : Post) : List String :=
  let lang := jsOrUnd post.polylang.language
  if cfg.postFolders then groupFolder ++ ["index." ++ lang ++ ".md"]
  else buildPostPath cfg { post with slug := baseSlug ++ "." ++ lang }

/-- Candidate Markdown units for one `groupMap` entry, mirroring the loop body
of `writeMarkdownFilesPromise`: the Polylang branch fires when
`shared.config.polylang && postsInGroup.length > 1`; otherwise each post goes
through `shared.buildPostPath` alone. -/
def mdGroupItems (cfg : Config) (entry : String × List Post) : List PlanItem :=
  let single : List Post → List PlanItem :=
    fun posts => posts.map (fun post =>
      ⟨.post post, post.type, none, buildPostPath cfg post⟩)
  if cfg.polylang then
    match entry.2 with
    | p0 :: p1 :: rest =>
        let postsInGroup := p0 :: p1 :: rest
        let baseSlug := chooseBaseSlug postsInGroup cfg.defaultLanguage
        -- `path.dirname(shared.buildPostPath({...postsInGroup[0], slug: baseSlug}))`
        let groupFolder := (buildPostPath cfg { p0 with slug := baseSlug }).dropLast
        postsInGroup.map (fun post =>
          ⟨.post post, post.type, none, mdGroupDest cfg groupFolder baseSlug post⟩)
    | posts => single posts
  else single entry.2

/-- Model of `writeMarkdownFilesPromise(groupMap)` (writer), as a pure function of the
configuration, the filesystem state and the group map: the state after
planning (payload execution itself is `processPayloadsPromise`). -/
def writeMarkdownFilesPromise (cfg : Config) (fs : List (List String))
    (groupMap : List (String × List Post)) : PlanState :=
  planOver fs cfg.writeDelay ⟨0, 0, []⟩ (groupMap.flatMap (mdGroupItems cfg))

/-- Candidate image units for one post in the non-Polylang arm of
`writeImageFilesPromise`: images go next to the post's own path, one per
`post.imageUrls` entry, named by `shared.getFilenameFromUrl`. -/
def imgPostItems (cfg : Config) (post : Post) : List PlanItem :=
  let dir := (buildPostPath cfg post).dropLast ++ ["images"]
  post.imageUrls.map (fun url =>
    ⟨.image url, "image", some (getFilenameFromUrl url), dir ++ [getFilenameFromUrl url]⟩)

/-- Candidate image units for one `groupMap` entry, mirroring
`writeImageFilesPromise`: a multi-member Polylang group pools every member's
images into the group folder's single `images/` directory; otherwise each
post keeps its own `images/` directory. -/
def imgGroupItems (cfg : Config) (entry : String × List Post) : List PlanItem :=
  if cfg.polylang then
    match entry.2 with
    | p0 :: p1 :: rest =>
        let postsInGroup := p0 :: p1 :: rest
        let baseSlug := chooseBaseSlug postsInGroup cfg.defaultLanguage
        let groupFolder := if cfg.postFolders then [cfg.output, baseSlug] else [cfg.output]
        let imagesDir := groupFolder ++ ["images"]
        postsInGroup.flatMap (fun post =>
          post.imageUrls.map (fun url =>
            ⟨.image url, "image", some (getFilenameFromUrl url),
              imagesDir ++ [getFilenameFromUrl url]⟩))
    | posts => posts.flatMap (imgPostItems cfg)
  else entry.2.flatMap (imgPostItems cfg)

/-- Model of `writeImageFilesPromise(groupMap)` (writer), as a pure function of the
configuration, the filesystem state and the group map. -/
def writeImageFilesPromise (cfg : Config) (fs : List (List String))
    (groupMap : List (String × List Post)) : PlanState :=
  planOver fs cfg.requestDelay ⟨0, 0, []⟩ (groupMap.flatMap (imgGroupItems cfg))

/-- One unit of `processPayloadsPromise`: `loadFunc(payload.item)` then
`writeFile(payload.destinationPath, data)` inside `try`/`catch` — the promise
fulfills (`true`) iff both steps succeed; any throw is caught and the promise
rejects (`false`).  The loader and the filesystem write are external effects,
passed as `Except`-valued functions. -/
def runUnit (load : Item → Except String String)
    (write : List String → String → Except String Unit) (payload : Payload) : Bool :=
  match load payload.item with
  | .error _ => false
  | .ok data =>
      match write payload.destinationPath data with
      | .error _ => false
      | .ok _ => true

/-- Model of `processPayloadsPromise(payloads, loadFunc)` (writer): every payload is
mapped to an independent promise and `Promise.allSettled` collects one
settled status per payload — the function itself always returns (allSettled
never rejects).  The result models the settled-status list, `true` =
fulfilled. -/
def processPayloadsPromise (load : Item → Except String String)
    (write : List String → String → Except String Unit)
    (payloads : List Payload) : List Bool :=
  payloads.map (runUnit load write)

/-- The `failedCount` the writer computes from the settled results. -/
def failedCount (results : List Bool) : Nat :=
  (results.filter (fun r => r = false)).length

/-- The grouping condition of `buildTranslationGroups`:
`tm && Object.keys(tm).length > 0`. -/
def hasTranslationMap (p : Post) : Bool :=
  match p.polylang.translationMap with
  | some tm => tm.length > 0
  | none => false

/-- Lookup in a group map (JS `groups[key]`). -/
def lookupGroup (m : List (String × List Post)) (key : String) : Option (List Post) :=
  match m with
  | [] => none
  | (k, v) :: rest => if k = key then some v else lookupGroup rest key

/-- A base post fixture: a post as `buildPost` would produce it, before any
Polylang enrichment. -/
def fxPost : Post :=
  { id := "0"
    type := "post"
    slug := "s"
    language := none
    coverImageId := none
    coverImage := none
    polylang := ⟨none, none, none⟩
    frontmatter := []
    metaContent := []
    content := "c"
    imageUrls := [] }

/-- Configuration fixture: Polylang on, per-post folders on. -/
def fxCfgGrouped : Config := ⟨true, true, "out", "en", 25, 500, "", false, false⟩

/-- Configuration fixture: Polylang off, per-post folders off. -/
def fxCfgFlat : Config := ⟨false, false, "out", "en", 25, 500, "", false, false⟩

/-- Raw item fixture for the French member of a two-post translation set. -/
def fxItemFr : ItemData := ⟨"post", "9", "http://x/9", "publish", "premier", "cf", none⟩

/-- Raw item fixture for the English member of a two-post translation set. -/
def fxItemEn : ItemData := ⟨"post", "8", "http://x/8", "publish", "second", "ce", none⟩

/-- Category tags marking a post French and in translation set `g`. -/
def fxCatsFr : List CategoryTag := [⟨some "language", some "fr"⟩, ⟨some "post_translations", some "g"⟩]

/-- Category tags marking a post English and in translation set `g`. -/
def fxCatsEn : List CategoryTag := [⟨some "language", some "en"⟩, ⟨some "post_translations", some "g"⟩]

/-- A concrete stand-in for `unserialize`: parses the one serialized
description of translation set `g` and fails on everything else. -/
def fxParse (s : String) : Option (List (String × String)) :=
  if s = "ok-g" then some [("fr", "9"), ("en", "8")] else none

/-- The one `post_translations` term of the fixture export. -/
def fxTerms : List Term := [⟨"post_translations", "g", "ok-g"⟩]

/-- The French member, produced by the embedded pipeline
(`buildPost` then step 6/7 enrichment). -/
def fxPostFr : Post := attachPolylang (processTerms fxParse fxTerms).1 (buildPost fxItemFr) fxCatsFr

/-- The English member, produced by the embedded pipeline. -/
def fxPostEn : Post := attachPolylang (processTerms fxParse fxTerms).1 (buildPost fxItemEn) fxCatsEn

/-- Scenario fixture (C4): post ID 1, slug `slug1`, language `en`,
translation map `{en: "1", fr: "2"}`. -/
def fxScenario1 : Post :=
  { fxPost with id := "1", slug := "slug1"
                polylang := ⟨some "en", some "pll_s", some [("en", "1"), ("fr", "2")]⟩ }

/-- Scenario fixture (C4): post ID 2, slug `slug2`, language `fr`, same map. -/
def fxScenario2 : Post :=
  { fxPost with id := "2", slug := "slug2"
                polylang := ⟨some "fr", some "pll_s", some [("en", "1"), ("fr", "2")]⟩ }

/-- Two attachment records whose URLs differ but share the final path
segment `img.png`. -/
def fxImgA : ImageInfo := ⟨"100", "0", "http://x/a/img.png"⟩

/-- Second image record, same filename under a different directory. -/
def fxImgB : ImageInfo := ⟨"101", "0", "http://x/b/img.png"⟩

/-- A post carrying both colliding image URLs, attached through
`mergeImagesIntoPosts` as the real pipeline does. -/
def fxPostImgs : List Post := mergeImagesIntoPosts [fxImgA, fxImgB] [fxPost]

/-- Duplicate-id fixture: two distinct posts sharing id `7`, no translation
mapping. -/
def fxDup1 : Post := { fxPost with id := "7", slug := "s1" }

/-- Second duplicate-id fixture post. -/
def fxDup2 : Post := { fxPost with id := "7", slug := "s2" }

/-- Multi-line frontmatter fixture: one key whose value contains a newline. -/
def fxPostMulti : Post :=
  { fxPost with frontmatter := [("description", .str "first\nsecond")], content := "BODY" }

/-- Term fixture whose `term_description` is unparsable. -/
def fxBadTerms : List Term := [⟨"post_translations", "gbad", "bad"⟩]

/-- The post with unparsable translation metadata, built through the embedded
pipeline (term parsing, then polylang enrichment with a `post_translations`
category naming the bad term's slug). -/
def fxAttachedBad : Post :=
  attachPolylang (processTerms fxParse fxBadTerms).1 fxPost
    [⟨some "post_translations", some "gbad"⟩]

/-- A sibling post whose parsable single-entry translation map `{en: "0"}`
aggregates to exactly the bad post's id `"0"`, so both compute group key
`"0"`. -/
def fxSibling : Post :=
  { fxPost with id := "5", slug := "sib"
                polylang := ⟨some "en", some "galias", some [("en", "0")]⟩ }

/-- Splits a string into its lines at newline characters. -/
def splitOnNewline (s : String) : List String :=
  splitOnChar '\n' s

lemma planOver_cons (fs : List (List String)) (inc : Nat) (st : PlanState)
    (it : PlanItem) (rest : List PlanItem) :
    planOver fs inc st (it :: rest) = planOver fs inc (planStep fs inc st it) rest := rfl

lemma planOver_payload_dests (fs : List (List String)) (inc : Nat)
    (items : List PlanItem) (st : PlanState) :
    (planOver fs inc st items).payloads.map (fun p => p.destinationPath)
      = st.payloads.map (fun p => p.destinationPath)
        ++ (items.filter (fun it => !(fsHas fs it.dest))).map (fun it => it.dest) := by
  induction items generalizing st with
  | nil => simp [planOver]
  | cons it rest ih =>
      rw [planOver_cons, ih]
      by_cases h : fsHas fs it.dest
      · simp [planStep, h]
      · simp [planStep, h]

lemma planOver_existing (fs : List (List String)) (inc : Nat)
    (items : List PlanItem) (st : PlanState) :
    (planOver fs inc st items).existingCount
      = st.existingCount + items.countP (fun it => fsHas fs it.dest) := by
  induction items generalizing st with
  | nil => simp [planOver]
  | cons it rest ih =>
      rw [planOver_cons, ih]
      by_cases h : fsHas fs it.dest
      · simp [planStep, h, List.countP_cons]
        omega
      · simp [planStep, h, List.countP_cons]

lemma planOver_payload_mem (fs : List (List String)) (inc : Nat)
    (items : List PlanItem) (st : PlanState) (p : Payload)
    (hp : p ∈ (planOver fs inc st items).payloads) :
    p ∈ st.payloads
      ∨ ∃ it ∈ items, fsHas fs it.dest = false ∧ p.item = it.item
          ∧ p.type = it.type ∧ p.name = it.name ∧ p.destinationPath = it.dest := by
  induction items generalizing st with
  | nil => exact Or.inl hp
  | cons it rest ih =>
      rw [planOver_cons] at hp
      rcases ih _ hp with h | ⟨it', hmem, hrest⟩
      · by_cases hfs : fsHas fs it.dest
        · simp [planStep, hfs] at h
          exact Or.inl h
        · simp [planStep, hfs] at h
          rcases h with h | h
          · exact Or.inl h
          · refine Or.inr ⟨it, List.mem_cons_self _ _, ?_⟩
            simp [h, eq_false_of_ne_true hfs]
      · exact Or.inr ⟨it', List.mem_cons_of_mem _ hmem, hrest⟩

lemma fsHas_iff_mem (fs : List (List String)) (d : List String) :
    fsHas fs d = true ↔ d ∈ fs := by
  simp [fsHas]

lemma planOver_payloads_nil (fs : List (List String)) (inc : Nat)
    (items : List PlanItem)
    (h : ∀ it ∈ items, fsHas fs it.dest = true) :
    (planOver fs inc ⟨0, 0, []⟩ items).payloads = [] := by
  have hmap := planOver_payload_dests fs inc items ⟨0, 0, []⟩
  have hfilter : items.filter (fun it => !(fsHas fs it.dest)) = [] := by
    rw [List.filter_eq_nil_iff]
    intro it hit
    simp [h it hit]
  rw [hfilter] at hmap
  simpa using hmap

/-- C3: the Planner skips every candidate destination whose file already
exists — it counts it in `existingCount` (both planners count exactly the
candidates the filesystem already has) and emits no payload targeting an
existing path — and a second planning run, against any filesystem that
additionally contains every destination the first run's payloads were
written to, emits zero payloads for both the Markdown and the image phase. -/
theorem claim3_planner_idempotent (cfg : Config) (gm : List (String × List Post))
    (fs fs' : List (List String))
    (hsub : ∀ d ∈ fs, d ∈ fs')
    (hmd : ∀ p ∈ (writeMarkdownFilesPromise cfg fs gm).payloads, p.destinationPath ∈ fs')
    (himg : ∀ p ∈ (writeImageFilesPromise cfg fs gm).payloads, p.destinationPath ∈ fs') :
    ((writeMarkdownFilesPromise cfg fs gm).existingCount
        = (gm.flatMap (mdGroupItems cfg)).countP (fun it => fsHas fs it.dest)
      ∧ ∀ p ∈ (writeMarkdownFilesPromise cfg fs gm).payloads,
          fsHas fs p.destinationPath = false)
    ∧ ((writeImageFilesPromise cfg fs gm).existingCount
        = (gm.flatMap (imgGroupItems cfg)).countP (fun it => fsHas fs it.dest)
      ∧ ∀ p ∈ (writeImageFilesPromise cfg fs gm).payloads,
          fsHas fs p.destinationPath = false)
    ∧ (writeMarkdownFilesPromise cfg fs' gm).payloads = []
    ∧ (writeImageFilesPromise cfg fs' gm).payloads = [] := by
  have skip : ∀ (inc : Nat) (items : List PlanItem),
      ∀ p ∈ (planOver fs inc ⟨0, 0, []⟩ items).payloads,
        fsHas fs p.destinationPath = false := by
    intro inc items p hp
    rcases planOver_payload_mem fs inc items _ p hp with h | ⟨it, _, hfs, _, _, _, hdest⟩
    · simp at h
    · rw [hdest]; exact hfs
  have second : ∀ (inc inc' : Nat) (items : List PlanItem),
      (∀ p ∈ (planOver fs inc ⟨0, 0, []⟩ items).payloads, p.destinationPath ∈ fs') →
      (planOver fs' inc' ⟨0, 0, []⟩ items).payloads = [] := by
    intro inc inc' items hwritten
    apply planOver_payloads_nil
    intro it hit
    by_cases hfs : fsHas fs it.dest
    · rw [fsHas_iff_mem]
      exact hsub _ ((fsHas_iff_mem fs it.dest).mp hfs)
    · rw [fsHas_iff_mem]
      have hdest : it.dest ∈ (planOver fs inc ⟨0, 0, []⟩ items).payloads.map
          (fun p => p.destinationPath) := by
        rw [planOver_payload_dests]
        simp only [List.map_nil, List.nil_append]
        exact List.mem_map_of_mem _ (List.mem_filter.mpr ⟨hit, by simp [hfs]⟩)
      rcases List.mem_map.mp hdest with ⟨p, hp, hpd⟩
      rw [← hpd]
      exact hwritten p hp
  refine ⟨⟨?_, skip cfg.writeDelay _⟩, ⟨?_, skip cfg.requestDelay _⟩, ?_, ?_⟩
  · simpa using planOver_existing fs cfg.writeDelay (gm.flatMap (mdGroupItems cfg)) ⟨0, 0, []⟩
  · simpa using planOver_existing fs cfg.requestDelay (gm.flatMap (imgGroupItems cfg)) ⟨0, 0, []⟩
  · exact second cfg.writeDelay cfg.writeDelay _ hmd
  · exact second cfg.requestDelay cfg.requestDelay _ himg

/-- Witness for C3 at a concrete run: one post, empty initial filesystem,
second filesystem = exactly the destination the first run planned. -/
theorem claim3_witness :
    (writeMarkdownFilesPromise fxCfgFlat [["out", "s.md"]]
        (singletonGroups [fxPost])).payloads = []
      ∧ (writeImageFilesPromise fxCfgFlat [["out", "s.md"]]
          (singletonGroups [fxPost])).payloads = []
      ∧ (writeMarkdownFilesPromise fxCfgFlat [] (singletonGroups [fxPost])).existingCount
        = ((singletonGroups [fxPost]).flatMap (mdGroupItems fxCfgFlat)).countP
            (fun it => fsHas [] it.dest) := by
  have h := claim3_planner_idempotent fxCfgFlat (singletonGroups [fxPost])
    [] [["out", "s.md"]]
    (by decide) (by decide) (by decide)
  exact ⟨h.2.2.1, h.2.2.2, h.1.1⟩

lemma bool_filter_aux (l : List Bool) :
    (l.filter (fun r => r)).length + (l.filter (fun r => !r)).length = l.length := by
  induction l with
  | nil => rfl
  | cons b rest ih =>
      cases b <;> simp [List.filter_cons] <;> omega

lemma bool_filter_split (l : List Bool) :
    (l.filter (fun r => r = true)).length + (l.filter (fun r => r = false)).length
      = l.length := by
  have h1 : (fun r : Bool => decide (r = true)) = fun r : Bool => r := by
    funext r; cases r <;> rfl
  have h2 : (fun r : Bool => decide (r = false)) = fun r : Bool => !r := by
    funext r; cases r <;> rfl
  show (l.filter (fun r : Bool => decide (r = true))).length
      + (l.filter (fun r : Bool => decide (r = false))).length = l.length
  rw [h1, h2]
  exact bool_filter_aux l

/-- C5: the Executor settles every unit — one settled status per payload, the
fulfilled count plus the failed count equals the payload count, and each
unit's outcome is a function of that payload alone (no cross-unit
interference); the call itself always returns (the model is a total
function, as `Promise.allSettled` never rejects). -/
theorem claim5_executor_isolation (load : Item → Except String String)
    (write : List String → String → Except String Unit) (payloads : List Payload) :
    (processPayloadsPromise load write payloads).length = payloads.length
    ∧ ((processPayloadsPromise load write payloads).filter (fun r => r = true)).length
        + failedCount (processPayloadsPromise load write payloads) = payloads.length
    ∧ ∀ i : Nat, (processPayloadsPromise load write payloads)[i]?
        = (payloads[i]?).map (runUnit load write) := by
  refine ⟨by simp [processPayloadsPromise], ?_, ?_⟩
  · have h := bool_filter_split (processPayloadsPromise load write payloads)
    simpa [failedCount, processPayloadsPromise] using h
  · intro i
    simp [processPayloadsPromise, List.getElem?_map]

/-- C10: a frontmatter entry whose value is an empty array, `null`,
`undefined`, or the empty string serializes to nothing — `outputValue` stays
undefined, so the serialized document with the entry equals the document
without it (the key is omitted entirely). -/
theorem claim10_empty_values_omit_key (cfg : Config) (post : Post) (k : String)
    (pre suf : List (String × FmValue)) (v : FmValue)
    (hv : v = .arr [] ∨ v = .null ∨ v = .undef ∨ v = .str "") :
    fmSerializeValue cfg v = none
    ∧ loadMarkdownFilePromise cfg { post with frontmatter := pre ++ (k, v) :: suf }
        = loadMarkdownFilePromise cfg { post with frontmatter := pre ++ suf } := by
  have hnone : fmSerializeValue cfg v = none := by
    rcases hv with h | h | h | h <;> subst h <;> rfl
  refine ⟨hnone, ?_⟩
  unfold loadMarkdownFilePromise
  simp [List.foldl_append, hnone]

/-- Witness for C10: a post whose only frontmatter entry is an empty array
produces the same document as a post with no frontmatter at all. -/
theorem claim10_witness :
    fmSerializeValue fxCfgFlat (.arr []) = none
    ∧ loadMarkdownFilePromise fxCfgFlat
        { fxPost with frontmatter := [] ++ ("tags", .arr []) :: [] }
        = loadMarkdownFilePromise fxCfgFlat { fxPost with frontmatter := [] ++ [] } :=
  claim10_empty_values_omit_key fxCfgFlat fxPost "tags" [] [] (.arr []) (Or.inl rfl)

/-- C8 (the code's actual behavior at the failing input): a multi-line string
value is NOT emitted as an indented literal block — `outputValue += ...` on
the uninitialized variable makes the header line read
`description: undefined  first`, gluing the first value line onto the key's
line after a spurious `undefined`, so the first line never appears as an
indented line of its own. -/
theorem claim8_multiline_bug :
    loadMarkdownFilePromise fxCfgFlat fxPostMulti
      = "---\ndescription: undefined  first\n  second\n\n---\n\nBODY\n"
    ∧ (splitOnNewline (loadMarkdownFilePromise fxCfgFlat fxPostMulti)).contains "  first"
        = false
    ∧ (splitOnNewline (loadMarkdownFilePromise fxCfgFlat fxPostMulti)).contains "  second"
        = true := by
  exact ⟨by decide, by decide, by decide⟩

lemma str_affix_inj (pre suf a b : String)
    (h : pre ++ a ++ suf = pre ++ b ++ suf) : a = b := by
  have hd : (pre ++ a ++ suf).data = (pre ++ b ++ suf).data := congrArg String.data h
  simp only [String.data_append] at hd
  rw [List.append_assoc, List.append_assoc] at hd
  exact String.ext (List.append_cancel_right (List.append_cancel_left hd))

lemma imgPostItems_shape (cfg : Config) (p : Post) :
    ∀ it ∈ imgPostItems cfg p, ∃ url dir,
      it = ⟨.image url, "image", some (getFilenameFromUrl url),
            dir ++ [getFilenameFromUrl url]⟩ := by
  intro it hit
  simp only [imgPostItems, List.mem_map] at hit
  rcases hit with ⟨url, _, rfl⟩
  exact ⟨url, (buildPostPath cfg p).dropLast ++ ["images"], rfl⟩

lemma imgGroupItems_shape (cfg : Config) (entry : String × List Post) :
    ∀ it ∈ imgGroupItems cfg entry, ∃ url dir,
      it = ⟨.image url, "image", some (getFilenameFromUrl url),
            dir ++ [getFilenameFromUrl url]⟩ := by
  intro it hit
  rcases entry with ⟨k, posts⟩
  unfold imgGroupItems at hit
  by_cases hpl : cfg.polylang
  · rw [if_pos hpl] at hit
    rcases posts with _ | ⟨p0, _ | ⟨p1, rest⟩⟩
    · simp at hit
    · simp only [List.flatMap_cons, List.flatMap_nil, List.append_nil] at hit
      exact imgPostItems_shape cfg p0 it hit
    · simp only [List.mem_flatMap, List.mem_map] at hit
      obtain ⟨p, _, url, _, rfl⟩ := hit
      exact ⟨url, _, rfl⟩
  · rw [if_neg hpl] at hit
    simp only [List.mem_flatMap] at hit
    obtain ⟨p, _, hmem⟩ := hit
    exact imgPostItems_shape cfg p it hmem

lemma imgItems_name_dest (cfg : Config) (entry : String × List Post)
    (it : PlanItem) (h : it ∈ imgGroupItems cfg entry) :
    it.name = some (it.dest.getLastD "") := by
  obtain ⟨url, dir, rfl⟩ := imgGroupItems_shape cfg entry it h
  simp [List.getLastD_concat]

lemma img_payload_name_dest (cfg : Config) (fs : List (List String))
    (gm : List (String × List Post)) (p : Payload)
    (hp : p ∈ (writeImageFilesPromise cfg fs gm).payloads) :
    p.name = some (p.destinationPath.getLastD "") := by
  unfold writeImageFilesPromise at hp
  rcases planOver_payload_mem _ _ _ _ _ hp with h | ⟨it, hmem, _, _, _, hname, hdest⟩
  · simp at h
  · rcases List.mem_flatMap.mp hmem with ⟨entry, _, hit⟩
    rw [hname, hdest]
    exact imgItems_name_dest cfg entry it hit

/-- C2 is FALSE as stated: over one post collection (a single post carrying
two different attachment URLs that share the final path segment `img.png`,
attached through `mergeImagesIntoPosts`), the image Planner produces two
distinct payloads with the same destination path. -/
theorem claim2_counterexample :
    (writeImageFilesPromise fxCfgFlat [] (singletonGroups fxPostImgs)).payloads.map
        (fun p => (p.item, p.destinationPath))
      = [(.image "http://x/a/img.png", ["out", "images", "img.png"]),
         (.image "http://x/b/img.png", ["out", "images", "img.png"])]
    ∧ ("http://x/a/img.png" : String) ≠ "http://x/b/img.png" := by
  exact ⟨by decide, by decide⟩

/-- C2 amended: the Planner does not deduplicate destination paths.  What
holds is: (1) two image payloads of one run can only share a destination by
sharing the derived filename (the URL's final path segment) — the payload's
`name` is a function of its destination — so two URLs with distinct final
segments planned for the same images directory never collide; and (2) within
one multi-member translation group, Markdown payloads for members with
distinct effective languages (`language || 'und'`) have distinct
destinations. -/
theorem claim2_amended :
    (∀ (cfg : Config) (fs : List (List String)) (gm : List (String × List Post))
        (p q : Payload),
        p ∈ (writeImageFilesPromise cfg fs gm).payloads →
        q ∈ (writeImageFilesPromise cfg fs gm).payloads →
        p.destinationPath = q.destinationPath → p.name = q.name)
    ∧ (∀ (cfg : Config) (groupFolder : List String) (baseSlug : String) (p q : Post),
        jsOrUnd p.polylang.language ≠ jsOrUnd q.polylang.language →
        mdGroupDest cfg groupFolder baseSlug p ≠ mdGroupDest cfg groupFolder baseSlug q) := by
  constructor
  · intro cfg fs gm p q hp hq hdest
    rw [img_payload_name_dest cfg fs gm p hp, img_payload_name_dest cfg fs gm q hq, hdest]
  · intro cfg groupFolder baseSlug p q hlang heq
    apply hlang
    unfold mdGroupDest at heq
    by_cases hpf : cfg.postFolders
    · rw [if_pos hpf, if_pos hpf] at heq
      have h := List.append_cancel_left heq
      have h2 : ("index." ++ jsOrUnd p.polylang.language ++ ".md" : String)
          = "index." ++ jsOrUnd q.polylang.language ++ ".md" := by
        injection h with h3 _
      exact str_affix_inj _ _ _ _ h2
    · rw [if_neg hpf, if_neg hpf] at heq
      unfold buildPostPath at heq
      rw [if_neg hpf, if_neg hpf] at heq
      injection heq with _ h
      injection h with h2 _
      have h3 : (baseSlug ++ "." ++ jsOrUnd p.polylang.language ++ ".md" : String)
          = baseSlug ++ "." ++ jsOrUnd q.polylang.language ++ ".md" := by
        exact congrArg (fun s => s) (by simpa using congrArg (fun s => s) h2)
      exact str_affix_inj _ _ _ _ h3

/-- Witness for the amended C2 at concrete inputs: the two colliding payloads
of the counterexample run indeed carry the same derived name, and the two
scenario posts (languages `en` and `fr`) get distinct group destinations. -/
theorem claim2_witness :
    ((⟨.image "http://x/a/img.png", "image", some "img.png",
        ["out", "images", "img.png"], 0⟩ : Payload).name
      = (⟨.image "http://x/b/img.png", "image", some "img.png",
          ["out", "images", "img.png"], 500⟩ : Payload).name)
    ∧ mdGroupDest fxCfgGrouped ["out", "slug1"] "slug1" fxScenario1
        ≠ mdGroupDest fxCfgGrouped ["out", "slug1"] "slug1" fxScenario2 := by
  constructor
  · exact claim2_amended.1 fxCfgFlat [] (singletonGroups fxPostImgs) _ _
      (by decide) (by decide) (by decide)
  · exact claim2_amended.2 fxCfgGrouped ["out", "slug1"] "slug1" fxScenario1 fxScenario2
      (by decide)

/-- C4: destination resolution for members of a multi-member translation
group — with per-post folders the planner resolves
`{output}/{baseSlug}/index.{lang}.md` (lang = the post's language, or `und`
when unset), without per-post folders `{output}/{baseSlug}.{lang}.md`; and
the concrete two-post scenario (IDs 1 and 2, map `{en:"1", fr:"2"}`, default
language `en`, per-post folders on) yields group key `"1,2"`, base slug
`slug1`, and exactly the outputs `out/slug1/index.en.md` and
`out/slug1/index.fr.md`. -/
theorem claim4_group_destinations :
    (∀ (cfg : Config) (baseSlug : String) (p0 post : Post) (l : String),
        cfg.postFolders = true →
        ((post.polylang.language = some l → l ≠ "" →
            mdGroupDest cfg ((buildPostPath cfg { p0 with slug := baseSlug }).dropLast)
                baseSlug post
              = [cfg.output, baseSlug, "index." ++ l ++ ".md"])
          ∧ (post.polylang.language = none →
              mdGroupDest cfg ((buildPostPath cfg { p0 with slug := baseSlug }).dropLast)
                  baseSlug post
                = [cfg.output, baseSlug, "index.und.md"])))
    ∧ (∀ (cfg : Config) (groupFolder : List String) (baseSlug : String) (post : Post)
          (l : String),
        cfg.postFolders = false →
        ((post.polylang.language = some l → l ≠ "" →
            mdGroupDest cfg groupFolder baseSlug post
              = [cfg.output, baseSlug ++ "." ++ l ++ ".md"])
          ∧ (post.polylang.language = none →
              mdGroupDest cfg groupFolder baseSlug post
                = [cfg.output, baseSlug ++ ".und.md"])))
    ∧ (buildTranslationGroups [fxScenario1, fxScenario2]
        = [("1,2", [fxScenario1, fxScenario2])]
      ∧ chooseBaseSlug [fxScenario1, fxScenario2] fxCfgGrouped.defaultLanguage = "slug1"
      ∧ (writeMarkdownFilesPromise fxCfgGrouped []
            (buildTranslationGroups [fxScenario1, fxScenario2])).payloads.map
          (fun p => p.destinationPath)
        = [["out", "slug1", "index.en.md"], ["out", "slug1", "index.fr.md"]]) := by
  refine ⟨?_, ?_, by decide, by decide, by decide⟩
  · intro cfg baseSlug p0 post l hpf
    constructor
    · intro hl hne
      simp [mdGroupDest, buildPostPath, hpf, jsOrUnd, hl, hne]
    · intro hl
      simp [mdGroupDest, buildPostPath, hpf, jsOrUnd, hl]
  · intro cfg groupFolder baseSlug post l hpf
    constructor
    · intro hl hne
      simp only [mdGroupDest, buildPostPath, hpf, jsOrUnd, hl, if_false,
        Bool.false_eq_true, if_neg hne]
    · intro hl
      simp only [mdGroupDest, buildPostPath, hpf, jsOrUnd, hl, Bool.false_eq_true, if_false]
      have hstr : ("." : String) ++ ("und" ++ ".md") = ".und.md" := by decide
      rw [String.append_assoc, String.append_assoc, hstr]

/-- Witness for C4: the French scenario post resolves to
`out/slug1/index.fr.md` inside the group folder derived from the base slug. -/
theorem claim4_witness :
    mdGroupDest fxCfgGrouped
        ((buildPostPath fxCfgGrouped { fxScenario1 with slug := "slug1" }).dropLast)
        "slug1" fxScenario2
      = ["out", "slug1", "index.fr.md"] :=
  (claim4_group_destinations.1 fxCfgGrouped "slug1" fxScenario1 fxScenario2 "fr" rfl).1
    rfl (by decide)

lemma char_eq_of_toNat_eq {c d : Char} (h : c.toNat = d.toNat) : c = d := by
  apply Char.ext
  apply UInt32.ext
  simpa [Char.toNat, UInt32.toNat] using h

lemma listCharLe_total : ∀ x y : List Char, listCharLe x y = true ∨ listCharLe y x = true := by
  intro x
  induction x with
  | nil => intro y; left; rfl
  | cons c cs ih =>
      intro y
      cases y with
      | nil => right; rfl
      | cons d ds =>
          by_cases h1 : c.toNat < d.toNat
          · left; simp [listCharLe, h1]
          · by_cases h2 : d.toNat < c.toNat
            · right; simp [listCharLe, h2]
            · rcases ih ds with h | h
              · left; simp [listCharLe, h1, h2, h]
              · right; simp [listCharLe, h1, h2, h]

lemma listCharLe_antisymm : ∀ x y : List Char,
    listCharLe x y = true → listCharLe y x = true → x = y := by
  intro x
  induction x with
  | nil =>
      intro y _ hyx
      cases y with
      | nil => rfl
      | cons d ds => simp [listCharLe] at hyx
  | cons c cs ih =>
      intro y hxy hyx
      cases y with
      | nil => simp [listCharLe] at hxy
      | cons d ds =>
          by_cases h1 : c.toNat < d.toNat
          · simp [listCharLe, h1] at hyx
            omega
          · by_cases h2 : d.toNat < c.toNat
            · simp [listCharLe, h1, h2] at hxy
            · have hcd : c = d := char_eq_of_toNat_eq (by omega)
              subst hcd
              simp [listCharLe, h1, h2] at hxy hyx
              rw [ih ds hxy hyx]

lemma listCharLe_trans : ∀ x y z : List Char,
    listCharLe x y = true → listCharLe y z = true → listCharLe x z = true := by
  intro x
  induction x with
  | nil => intro y z _ _; rfl
  | cons c cs ih =>
      intro y z hxy hyz
      cases y with
      | nil => simp [listCharLe] at hxy
      | cons d ds =>
          cases z with
          | nil => simp [listCharLe] at hyz
          | cons e es =>
              by_cases hcd : c.toNat < d.toNat
              · by_cases hde : d.toNat < e.toNat
                · simp [listCharLe]; omega
                · by_cases hed : e.toNat < d.toNat
                  · simp [listCharLe, hde, hed] at hyz
                  · simp [listCharLe]; omega
              · by_cases hdc : d.toNat < c.toNat
                · simp [listCharLe, hcd, hdc] at hxy
                · have hcdeq : c.toNat = d.toNat := by omega
                  simp only [listCharLe, if_neg hcd, if_neg hdc] at hxy
                  by_cases hde : d.toNat < e.toNat
                  · simp [listCharLe]; omega
                  · by_cases hed : e.toNat < d.toNat
                    · simp [listCharLe, hde, hed] at hyz
                    · simp only [listCharLe, if_neg hde, if_neg hed] at hyz
                      have hce : ¬ c.toNat < e.toNat := by omega
                      have hec : ¬ e.toNat < c.toNat := by omega
                      simp only [listCharLe, if_neg hce, if_neg hec]
                      exact ih ds es hxy hyz

instance : IsTotal String JsLe :=
  ⟨fun a b => listCharLe_total a.data b.data⟩

instance : IsTrans String JsLe :=
  ⟨fun _ _ _ hab hbc => listCharLe_trans _ _ _ hab hbc⟩

instance : IsAntisymm String JsLe :=
  ⟨fun _ _ hab hba => String.ext (listCharLe_antisymm _ _ hab hba)⟩

lemma sortStrings_perm_eq {l1 l2 : List String} (h : l1.Perm l2) :
    sortStrings l1 = sortStrings l2 :=
  List.eq_of_perm_of_sorted
    ((List.perm_insertionSort JsLe l1).trans (h.trans (List.perm_insertionSort JsLe l2).symm))
    (List.sorted_insertionSort JsLe l1) (List.sorted_insertionSort JsLe l2)

lemma groupKey_eq_of_some {p : Post} {tm : List (String × String)}
    (h : p.polylang.translationMap = some tm) (hlen : tm.length > 0) :
    groupKey p = String.intercalate "," (sortStrings (tm.map Prod.snd)) := by
  unfold groupKey
  rw [h]
  exact if_pos hlen

lemma groupKey_of_perm (p q : Post) (tmp tmq : List (String × String))
    (hp : p.polylang.translationMap = some tmp)
    (hq : q.polylang.translationMap = some tmq)
    (hperm : tmp.Perm tmq) (hne : tmp ≠ []) :
    groupKey p = groupKey q := by
  have hlp : tmp.length > 0 := List.length_pos.mpr hne
  have hlq : tmq.length > 0 := hperm.length_eq ▸ hlp
  rw [groupKey_eq_of_some hp hlp, groupKey_eq_of_some hq hlq,
    sortStrings_perm_eq (hperm.map Prod.snd)]

lemma insertGroup_flat (g : List (String × List Post)) (k : String) (p : Post) :
    ((insertGroup g k p).flatMap (fun kv => kv.2)).Perm
      ((g.flatMap (fun kv => kv.2)) ++ [p]) := by
  induction g with
  | nil => simp [insertGroup]
  | cons kv rest ih =>
      rcases kv with ⟨k0, l0⟩
      by_cases h : k0 = k
      · simp only [insertGroup, if_pos h, List.flatMap_cons]
        rw [List.append_assoc, List.append_assoc]
        exact (@List.perm_append_comm _ [p] (rest.flatMap (fun kv => kv.2))).append_left l0
      · simp only [insertGroup, if_neg h, List.flatMap_cons]
        rw [List.append_assoc]
        exact ih.append_left l0

lemma insertGroup_keys (g : List (String × List Post)) (k : String) (p : Post) :
    (insertGroup g k p).map (fun kv => kv.1)
      = if k ∈ g.map (fun kv => kv.1) then g.map (fun kv => kv.1)
        else g.map (fun kv => kv.1) ++ [k] := by
  induction g with
  | nil => simp [insertGroup]
  | cons kv rest ih =>
      rcases kv with ⟨k0, l0⟩
      by_cases h : k0 = k
      · simp [insertGroup, h]
      · simp only [insertGroup, if_neg h, List.map_cons, ih, List.mem_cons]
        by_cases hmem : k ∈ rest.map (fun kv => kv.1)
        · simp [hmem, Ne.symm h]
        · simp [hmem, Ne.symm h]

lemma insertGroup_correct (g : List (String × List Post)) (p : Post)
    (hg : ∀ kv ∈ g, ∀ q ∈ kv.2, groupKey q = kv.1) :
    ∀ kv ∈ insertGroup g (groupKey p) p, ∀ q ∈ kv.2, groupKey q = kv.1 := by
  induction g with
  | nil =>
      intro kv hkv q hq
      simp [insertGroup] at hkv
      subst hkv
      simp at hq
      subst hq
      rfl
  | cons kv0 rest ih =>
      rcases kv0 with ⟨k0, l0⟩
      by_cases h : k0 = groupKey p
      · simp only [insertGroup, if_pos h]
        intro kv hkv q hq
        rcases List.mem_cons.mp hkv with rfl | hkv'
        · rcases List.mem_append.mp hq with hq' | hq'
          · exact hg _ (List.mem_cons_self _ _) q hq'
          · simp at hq'
            subst hq'
            exact h.symm
        · exact hg _ (List.mem_cons_of_mem _ hkv') q hq
      · simp only [insertGroup, if_neg h]
        intro kv hkv q hq
        rcases List.mem_cons.mp hkv with rfl | hkv'
        · exact hg _ (List.mem_cons_self _ _) q hq
        · exact ih (fun kv h q hq => hg kv (List.mem_cons_of_mem _ h) q hq) kv hkv' q hq

lemma btg_fold_flat (posts : List Post) :
    ∀ g : List (String × List Post),
      ((posts.foldl (fun groups post => insertGroup groups (groupKey post) post) g).flatMap
          (fun kv => kv.2)).Perm
        ((g.flatMap (fun kv => kv.2)) ++ posts) := by
  induction posts with
  | nil => intro g; simp
  | cons p rest ih =>
      intro g
      simp only [List.foldl_cons]
      have h1 := ih (insertGroup g (groupKey p) p)
      have h2 := (insertGroup_flat g (groupKey p) p).append_right rest
      have h3 : ((g.flatMap (fun kv => kv.2)) ++ [p]) ++ rest
          = (g.flatMap (fun kv => kv.2)) ++ (p :: rest) := by
        rw [List.append_assoc]
        rfl
      rw [← h3]
      exact h1.trans h2

lemma btg_fold_keys_nodup (posts : List Post) :
    ∀ g : List (String × List Post),
      (g.map (fun kv => kv.1)).Nodup →
      ((posts.foldl (fun groups post => insertGroup groups (groupKey post) post) g).map
          (fun kv => kv.1)).Nodup := by
  induction posts with
  | nil => intro g hg; exact hg
  | cons p rest ih =>
      intro g hg
      apply ih
      rw [insertGroup_keys]
      by_cases h : groupKey p ∈ g.map (fun kv => kv.1)
      · rw [if_pos h]; exact hg
      · rw [if_neg h]
        simp [List.nodup_append, hg, h]

lemma btg_fold_correct (posts : List Post) :
    ∀ g : List (String × List Post),
      (∀ kv ∈ g, ∀ q ∈ kv.2, groupKey q = kv.1) →
      ∀ kv ∈ posts.foldl (fun groups post => insertGroup groups (groupKey post) post) g,
        ∀ q ∈ kv.2, groupKey q = kv.1 := by
  induction posts with
  | nil => intro g hg; exact hg
  | cons p rest ih =>
      intro g hg
      exact ih _ (insertGroup_correct g p hg)

lemma groupKey_no_map (p : Post) (hp : hasTranslationMap p = false) :
    groupKey p = p.id := by
  unfold hasTranslationMap at hp
  unfold groupKey
  cases htm : p.polylang.translationMap with
  | none => rfl
  | some tm =>
      rw [htm] at hp
      simp only at hp
      exact if_neg (of_decide_eq_false hp)

/-- C6: grouping invariants — every post lands in exactly one group (the
groups' members are a permutation of the input, group keys are pairwise
distinct, and every member's computed key is its group's key); a post with a
non-empty translation map is keyed by the sorted comma-joined mapped IDs and
a post without one by its own ID; and two posts with equivalent (equal up to
entry order, non-empty) translation maps get the same key. -/
theorem claim6_grouping_invariants :
    (∀ posts : List Post,
        ((buildTranslationGroups posts).flatMap (fun kv => kv.2)).Perm posts
        ∧ ((buildTranslationGroups posts).map (fun kv => kv.1)).Nodup
        ∧ ∀ kv ∈ buildTranslationGroups posts, ∀ p ∈ kv.2, groupKey p = kv.1)
    ∧ (∀ (p : Post) (tm : List (String × String)),
        p.polylang.translationMap = some tm → tm ≠ [] →
        groupKey p = String.intercalate "," (sortStrings (tm.map Prod.snd)))
    ∧ (∀ p : Post, hasTranslationMap p = false → groupKey p = p.id)
    ∧ (∀ (p q : Post) (tmp tmq : List (String × String)),
        p.polylang.translationMap = some tmp → q.polylang.translationMap = some tmq →
        tmp.Perm tmq → tmp ≠ [] → groupKey p = groupKey q) := by
  refine ⟨?_, ?_, ?_, ?_⟩
  · intro posts
    refine ⟨?_, ?_, ?_⟩
    · have h := btg_fold_flat posts []
      simpa [buildTranslationGroups] using h
    · exact btg_fold_keys_nodup posts [] (by simp)
    · exact btg_fold_correct posts [] (by simp)
  · intro p tm hp hne
    exact groupKey_eq_of_some hp (List.length_pos.mpr hne)
  · intro p hp
    exact groupKey_no_map p hp
  · intro p q tmp tmq hp hq hperm hne
    exact groupKey_of_perm p q tmp tmq hp hq hperm hne

/-- Witness for C6 on the two-post scenario group and a mapless post. -/
theorem claim6_witness :
    ((buildTranslationGroups [fxScenario1, fxScenario2]).flatMap (fun kv => kv.2)).Perm
        [fxScenario1, fxScenario2]
    ∧ groupKey fxScenario1
        = String.intercalate "," (sortStrings ([("en", "1"), ("fr", "2")].map Prod.snd))
    ∧ groupKey fxPost = fxPost.id
    ∧ groupKey fxScenario1 = groupKey fxScenario2 :=
  ⟨(claim6_grouping_invariants.1 [fxScenario1, fxScenario2]).1,
    claim6_grouping_invariants.2.1 fxScenario1 _ rfl (by decide),
    claim6_grouping_invariants.2.2.1 fxPost (by decide),
    claim6_grouping_invariants.2.2.2 fxScenario1 fxScenario2 _ _ rfl rfl
      (by decide) (by decide)⟩

lemma insertGroup_not_mem (g : List (String × List Post)) (k : String) (p : Post)
    (h : k ∉ g.map (fun kv => kv.1)) :
    insertGroup g k p = g ++ [(k, [p])] := by
  induction g with
  | nil => rfl
  | cons kv rest ih =>
      rcases kv with ⟨k0, l0⟩
      simp only [List.map_cons, List.mem_cons] at h
      push_neg at h
      simp only [insertGroup, if_neg (Ne.symm h.1)]
      rw [ih h.2]
      rfl

lemma setEntry_not_mem (g : List (String × List Post)) (k : String) (v : List Post)
    (h : k ∉ g.map (fun kv => kv.1)) :
    setEntry g k v = g ++ [(k, v)] := by
  induction g with
  | nil => rfl
  | cons kv rest ih =>
      rcases kv with ⟨k0, l0⟩
      simp only [List.map_cons, List.mem_cons] at h
      push_neg at h
      simp only [setEntry, if_neg (Ne.symm h.1)]
      rw [ih h.2]
      rfl

lemma singleton_fold (posts : List Post) :
    ∀ g : List (String × List Post),
      (∀ p ∈ posts, hasTranslationMap p = false) →
      (posts.map Post.id).Nodup →
      (∀ p ∈ posts, p.id ∉ g.map (fun kv => kv.1)) →
      posts.foldl (fun groups post => insertGroup groups (groupKey post) post) g
          = g ++ posts.map (fun p => (p.id, [p]))
        ∧ posts.foldl (fun gm post => setEntry gm post.id [post]) g
          = g ++ posts.map (fun p => (p.id, [p])) := by
  induction posts with
  | nil => intro g _ _ _; simp
  | cons p rest ih =>
      intro g hmap hnodup hfresh
      have hpid : p.id ∉ g.map (fun kv => kv.1) := hfresh p (List.mem_cons_self _ _)
      have hkey : groupKey p = p.id := groupKey_no_map p (hmap p (List.mem_cons_self _ _))
      simp only [List.map_cons, List.nodup_cons, List.mem_map] at hnodup
      have hfresh2 : ∀ q ∈ rest, q.id ∉ (g ++ [(p.id, [p])]).map (fun kv => kv.1) := by
        intro q hq
        simp only [List.map_append, List.mem_append, List.map_cons, List.map_nil,
          List.mem_cons, List.not_mem_nil, or_false]
        push_neg
        refine ⟨hfresh q (List.mem_cons_of_mem _ hq), ?_⟩
        intro hbad
        exact hnodup.1 ⟨q, hq, hbad⟩
      have hrest := ih (g ++ [(p.id, [p])]) (fun q hq => hmap q (List.mem_cons_of_mem _ hq))
        hnodup.2 hfresh2
      constructor
      · simp only [List.foldl_cons, hkey, insertGroup_not_mem g p.id p hpid]
        rw [hrest.1, List.append_assoc]
        rfl
      · simp only [List.foldl_cons, setEntry_not_mem g p.id [p] hpid]
        rw [hrest.2, List.append_assoc]
        rfl

/-- C7 is FALSE as stated: two distinct posts sharing id `7`, neither carrying
a translation mapping, group differently under the two modes — with
translation mode enabled both land in one (non-singleton) group `7`, while
the disabled mode's `groupMap[id] = [post]` assignment keeps only the last
one. -/
theorem claim7_counterexample :
    fxDup1.polylang.translationMap = none
    ∧ fxDup2.polylang.translationMap = none
    ∧ fxDup1 ≠ fxDup2
    ∧ buildTranslationGroups [fxDup1, fxDup2] ≠ singletonGroups [fxDup1, fxDup2] := by
  exact ⟨by decide, by decide, by decide, by decide⟩

/-- C7 amended: for collections with pairwise-distinct post IDs in which no
post carries a (non-empty) translation mapping, grouping with translation
mode enabled equals grouping with it disabled, and both are the map sending
each post to its own singleton group keyed by its id. -/
theorem claim7_no_maps_same_groups (posts : List Post)
    (hmap : ∀ p ∈ posts, hasTranslationMap p = false)
    (hnodup : (posts.map Post.id).Nodup) :
    buildTranslationGroups posts = posts.map (fun p => (p.id, [p]))
    ∧ singletonGroups posts = posts.map (fun p => (p.id, [p])) := by
  have h := singleton_fold posts [] hmap hnodup (by simp)
  simpa [buildTranslationGroups, singletonGroups] using h

/-- Witness for the amended C7: two mapless posts with distinct IDs group
identically in both modes, as singleton groups. -/
theorem claim7_witness :
    buildTranslationGroups [fxPost, fxDup1]
        = [fxPost, fxDup1].map (fun p => (p.id, [p]))
    ∧ singletonGroups [fxPost, fxDup1]
        = [fxPost, fxDup1].map (fun p => (p.id, [p])) :=
  claim7_no_maps_same_groups [fxPost, fxDup1] (by decide) (by decide)

lemma lookupEntry_setMapping_ne (m : List (String × List (String × String)))
    (k : String) (v : List (String × String)) (k' : String) (h : k ≠ k') :
    lookupEntry (setMapping m k v) k' = lookupEntry m k' := by
  induction m with
  | nil => simp [setMapping, lookupEntry, h]
  | cons kv rest ih =>
      rcases kv with ⟨k0, v0⟩
      by_cases h0 : k0 = k
      · subst h0
        simp [setMapping, lookupEntry, h]
      · simp only [setMapping, if_neg h0, lookupEntry]
        by_cases h1 : k0 = k'
        · simp [h1]
        · simp [h1, ih]

lemma processTerms_lookup_none
    (parse : String → Option (List (String × String))) (gs : String)
    (terms : List Term)
    (hall : ∀ u ∈ terms, u.taxonomy = "post_translations" → u.slug = gs →
        parse u.rawDesc = none) :
    ∀ acc : List (String × List (String × String)) × List String,
      lookupEntry acc.1 gs = none →
      lookupEntry (terms.foldl (fun acc term =>
        if term.taxonomy ≠ "post_translations" then acc
        else
          match parse term.rawDesc with
          | some parsed => (setMapping acc.1 term.slug parsed, acc.2)
          | none => (acc.1, acc.2 ++ [term.slug])) acc).1 gs = none := by
  induction terms with
  | nil => intro acc hacc; exact hacc
  | cons u rest ih =>
      intro acc hacc
      have hallrest : ∀ v ∈ rest, v.taxonomy = "post_translations" → v.slug = gs →
          parse v.rawDesc = none :=
        fun v hv => hall v (List.mem_cons_of_mem _ hv)
      simp only [List.foldl_cons]
      by_cases htax : u.taxonomy = "post_translations"
      · cases hparse : parse u.rawDesc with
        | some parsed =>
            have hslug : u.slug ≠ gs := by
              intro hbad
              rw [hall u (List.mem_cons_self _ _) htax hbad] at hparse
              cases hparse
            apply ih hallrest
            simp only [htax, ne_eq, not_true_eq_false, if_false, hparse]
            exact (lookupEntry_setMapping_ne _ _ _ _ hslug).trans hacc
        | none =>
            apply ih hallrest
            simp only [htax, ne_eq, not_true_eq_false, if_false, hparse]
            exact hacc
      · apply ih hallrest
        simp only [ne_eq, htax, not_false_eq_true, if_true]
        exact hacc

lemma processTerms_warn_mono
    (parse : String → Option (List (String × String))) (terms : List Term) :
    ∀ (acc : List (String × List (String × String)) × List String) (x : String),
      x ∈ acc.2 →
      x ∈ (terms.foldl (fun acc term =>
        if term.taxonomy ≠ "post_translations" then acc
        else
          match parse term.rawDesc with
          | some parsed => (setMapping acc.1 term.slug parsed, acc.2)
          | none => (acc.1, acc.2 ++ [term.slug])) acc).2 := by
  induction terms with
  | nil => intro acc x hx; exact hx
  | cons u rest ih =>
      intro acc x hx
      simp only [List.foldl_cons]
      by_cases htax : u.taxonomy = "post_translations"
      · cases hparse : parse u.rawDesc with
        | some parsed =>
            apply ih
            simpa [htax, hparse] using hx
        | none =>
            apply ih
            simp only [htax, ne_eq, not_true_eq_false, if_false, hparse]
            exact List.mem_append_left _ hx
      · apply ih
        simpa [htax] using hx

lemma processTerms_warns_aux
    (parse : String → Option (List (String × String))) (terms : List Term)
    (t : Term) (htax : t.taxonomy = "post_translations")
    (hfail : parse t.rawDesc = none) :
    ∀ acc : List (String × List (String × String)) × List String,
      t ∈ terms →
      t.slug ∈ (terms.foldl (fun acc term =>
        if term.taxonomy ≠ "post_translations" then acc
        else
          match parse term.rawDesc with
          | some parsed => (setMapping acc.1 term.slug parsed, acc.2)
          | none => (acc.1, acc.2 ++ [term.slug])) acc).2 := by
  induction terms with
  | nil => intro acc ht; cases ht
  | cons u rest ih =>
      intro acc ht
      simp only [List.foldl_cons]
      rcases List.mem_cons.mp ht with rfl | hmem
      · apply processTerms_warn_mono
        simp [htax, hfail]
      · exact ih _ hmem

lemma processTerms_warns
    (parse : String → Option (List (String × String))) (terms : List Term)
    (t : Term) (ht : t ∈ terms) (htax : t.taxonomy = "post_translations")
    (hfail : parse t.rawDesc = none) :
    t.slug ∈ (processTerms parse terms).2 :=
  processTerms_warns_aux parse terms t htax hfail ([], []) ht

lemma readCats_fold_tm (cats : List CategoryTag) :
    ∀ pl : Polylang,
      (cats.foldl (fun (pl : Polylang) cat =>
        let pl' := if cat.domain = some "language" then { pl with language := cat.nicename }
                   else pl
        if cat.domain = some "post_translations" then { pl' with groupSlug := cat.nicename }
        else pl') pl).translationMap = pl.translationMap := by
  induction cats with
  | nil => intro pl; rfl
  | cons cat rest ih =>
      intro pl
      simp only [List.foldl_cons]
      rw [ih]
      by_cases h1 : cat.domain = some "language" <;>
        by_cases h2 : cat.domain = some "post_translations" <;>
          simp [h1, h2]

lemma readCats_tm (cats : List CategoryTag) : (readCats cats).translationMap = none :=
  readCats_fold_tm cats ⟨none, none, none⟩

lemma attachPolylang_tm_none (M : List (String × List (String × String)))
    (post : Post) (cats : List CategoryTag) (gs : String)
    (hgs : (readCats cats).groupSlug = some gs) (hne : gs ≠ "")
    (hlook : lookupEntry M gs = none) :
    (attachPolylang M post cats).polylang.translationMap = none := by
  simp only [attachPolylang, hgs, hlook, hne, ne_eq, not_false_eq_true, if_true]
  exact readCats_tm cats

lemma attachPolylang_id (M : List (String × List (String × String)))
    (post : Post) (cats : List CategoryTag) :
    (attachPolylang M post cats).id = post.id := rfl

lemma insertGroup_lookup_ne (g : List (String × List Post)) (k' : String) (p : Post)
    (k : String) (h : k' ≠ k) :
    lookupGroup (insertGroup g k' p) k = lookupGroup g k := by
  induction g with
  | nil => simp [insertGroup, lookupGroup, h]
  | cons kv rest ih =>
      rcases kv with ⟨k0, l0⟩
      by_cases h0 : k0 = k'
      · subst h0
        simp [insertGroup, lookupGroup, h]
      · simp only [insertGroup, if_neg h0, lookupGroup]
        by_cases h1 : k0 = k
        · simp [h1]
        · simp [h1, ih]

lemma insertGroup_lookup_eq (g : List (String × List Post)) (k : String) (p : Post) :
    lookupGroup (insertGroup g k p) k = some ((lookupGroup g k).getD [] ++ [p]) := by
  induction g with
  | nil => simp [insertGroup, lookupGroup]
  | cons kv rest ih =>
      rcases kv with ⟨k0, l0⟩
      by_cases h0 : k0 = k
      · subst h0
        simp [insertGroup, lookupGroup]
      · simp [insertGroup, h0, lookupGroup, ih]

lemma btg_lookup_fold_ne (posts : List Post) (k : String)
    (h : ∀ q ∈ posts, groupKey q ≠ k) :
    ∀ g : List (String × List Post),
      lookupGroup (posts.foldl (fun groups post =>
        insertGroup groups (groupKey post) post) g) k = lookupGroup g k := by
  induction posts with
  | nil => intro g; rfl
  | cons p rest ih =>
      intro g
      simp only [List.foldl_cons]
      rw [ih (fun q hq => h q (List.mem_cons_of_mem _ hq))]
      exact insertGroup_lookup_ne g (groupKey p) p k (h p (List.mem_cons_self _ _))

lemma btg_lookup_singleton (pre suf : List Post) (p : Post)
    (hkey : groupKey p = p.id)
    (hothers : ∀ q ∈ pre ++ suf, groupKey q ≠ p.id) :
    lookupGroup (buildTranslationGroups (pre ++ p :: suf)) p.id = some [p] := by
  unfold buildTranslationGroups
  rw [List.foldl_append, List.foldl_cons]
  have hpre : ∀ q ∈ pre, groupKey q ≠ p.id :=
    fun q hq => hothers q (List.mem_append_left _ hq)
  have hsuf : ∀ q ∈ suf, groupKey q ≠ p.id :=
    fun q hq => hothers q (List.mem_append_right _ hq)
  rw [btg_lookup_fold_ne suf p.id hsuf]
  rw [hkey, insertGroup_lookup_eq]
  rw [btg_lookup_fold_ne pre p.id hpre]
  rfl

/-- C9: when every `post_translations` term carrying a post's group slug has
an unparsable description, parsing records a warning for that slug (the run
continues — `processTerms` is total and the term is merely skipped), the
post's `translationMap` is left absent by the enrichment step, its group key
falls back to its own id, and — provided no other post's key collides with
that id — the post forms its own singleton group. -/
theorem claim9_malformed_translation_meta
    (parse : String → Option (List (String × String)))
    (terms : List Term) (t : Term) (gs : String)
    (post : Post) (cats : List CategoryTag) (pre suf : List Post)
    (ht : t ∈ terms) (htax : t.taxonomy = "post_translations") (hslug : t.slug = gs)
    (hfail : parse t.rawDesc = none)
    (hall : ∀ u ∈ terms, u.taxonomy = "post_translations" → u.slug = gs →
        parse u.rawDesc = none)
    (hgs : (readCats cats).groupSlug = some gs) (hne : gs ≠ "")
    (hothers : ∀ q ∈ pre ++ suf, groupKey q ≠ post.id) :
    gs ∈ (processTerms parse terms).2
    ∧ (attachPolylang (processTerms parse terms).1 post cats).polylang.translationMap = none
    ∧ groupKey (attachPolylang (processTerms parse terms).1 post cats) = post.id
    ∧ lookupGroup
        (buildTranslationGroups
          (pre ++ attachPolylang (processTerms parse terms).1 post cats :: suf))
        post.id
      = some [attachPolylang (processTerms parse terms).1 post cats] := by
  have hwarn : gs ∈ (processTerms parse terms).2 :=
    hslug ▸ processTerms_warns parse terms t ht htax hfail
  have hlook : lookupEntry (processTerms parse terms).1 gs = none :=
    processTerms_lookup_none parse gs terms hall ([], []) rfl
  have htm : (attachPolylang (processTerms parse terms).1 post cats).polylang.translationMap
      = none :=
    attachPolylang_tm_none _ post cats gs hgs hne hlook
  have hkey : groupKey (attachPolylang (processTerms parse terms).1 post cats) = post.id := by
    have hno : hasTranslationMap (attachPolylang (processTerms parse terms).1 post cats)
        = false := by
      unfold hasTranslationMap
      rw [htm]
    rw [groupKey_no_map _ hno, attachPolylang_id]
  refine ⟨hwarn, htm, hkey, ?_⟩
  have := btg_lookup_singleton pre suf
    (attachPolylang (processTerms parse terms).1 post cats)
    (by rw [hkey, attachPolylang_id]) (by rw [attachPolylang_id]; exact hothers)
  rw [attachPolylang_id] at this
  exact this

/-- Witness for C9: one unparsable `post_translations` term, one post tagged
with its slug, one unrelated sibling post. -/
theorem claim9_witness :
    ("gbad" : String) ∈ (processTerms fxParse [⟨"post_translations", "gbad", "bad"⟩]).2
    ∧ (attachPolylang (processTerms fxParse [⟨"post_translations", "gbad", "bad"⟩]).1
        fxPost [⟨some "post_translations", some "gbad"⟩]).polylang.translationMap = none
    ∧ groupKey (attachPolylang (processTerms fxParse [⟨"post_translations", "gbad", "bad"⟩]).1
        fxPost [⟨some "post_translations", some "gbad"⟩]) = fxPost.id
    ∧ lookupGroup
        (buildTranslationGroups
          ([] ++ attachPolylang (processTerms fxParse [⟨"post_translations", "gbad", "bad"⟩]).1
              fxPost [⟨some "post_translations", some "gbad"⟩] :: [fxDup1]))
        fxPost.id
      = some [attachPolylang (processTerms fxParse [⟨"post_translations", "gbad", "bad"⟩]).1
          fxPost [⟨some "post_translations", some "gbad"⟩]] :=
  claim9_malformed_translation_meta fxParse [⟨"post_translations", "gbad", "bad"⟩]
    ⟨"post_translations", "gbad", "bad"⟩ "gbad" fxPost
    [⟨some "post_translations", some "gbad"⟩] [] [fxDup1]
    (by decide) rfl rfl (by decide) (by decide) (by decide) (by decide) (by decide)

/-- C1 (the code's actual behavior): `chooseBaseSlug` tests the top-level
`p.language`, but the pipeline never assigns that property — `buildPost`
creates posts without it and the enrichment step writes only
`post.polylang.language` — so the default-language member is never found and
the first member's slug is always returned.  At the concrete pipeline-built
group below, the English member (`polylang.language = "en"`, the configured
default) has slug `second`, yet `chooseBaseSlug` returns the French first
member's slug `premier`. -/
theorem claim1_chooseBaseSlug_bug :
    (∀ d : ItemData, (buildPost d).language = none)
    ∧ (∀ (M : List (String × List (String × String))) (post : Post)
          (cats : List CategoryTag),
        (attachPolylang M post cats).language = post.language)
    ∧ buildTranslationGroups [fxPostFr, fxPostEn] = [("8,9", [fxPostFr, fxPostEn])]
    ∧ fxPostEn.polylang.language = some "en"
    ∧ fxPostEn.slug = "second"
    ∧ fxPostFr.polylang.language = some "fr"
    ∧ chooseBaseSlug [fxPostFr, fxPostEn] "en" = "premier"
    ∧ ("premier" : String) ≠ "second" := by
  exact ⟨fun d => rfl, fun M post cats => rfl, by decide, by decide, by decide,
    by decide, by decide, by decide⟩

/-- C9 is FALSE as stated: the post whose translation metadata is unparsable
does get the warning, the absent map and the own-id fallback key, but it does
NOT fall back to being "its own singleton group" — a sibling whose parsable
single-entry map `{en: "0"}` aggregates to the same key joins it in group
`"0"` in `buildTranslationGroups`. -/
theorem claim9_counterexample :
    ("gbad" : String) ∈ (processTerms fxParse fxBadTerms).2
    ∧ fxAttachedBad.polylang.translationMap = none
    ∧ groupKey fxAttachedBad = fxAttachedBad.id
    ∧ fxAttachedBad ≠ fxSibling
    ∧ lookupGroup (buildTranslationGroups [fxAttachedBad, fxSibling]) fxAttachedBad.id
        = some [fxAttachedBad, fxSibling] := by
  exact ⟨by decide, by decide, by decide, by decide, by decide⟩
